import Mathlib

/-!
# Verification of endian.hpp (giggle-endian)

Shallow embedding of `src/endian.hpp`: a header-only endianness library.
A byte buffer is modelled as a `List ℕ` of byte values (each `< 2^8`); the
object representation of an arithmetic value of byte size `S` on the
little-endian host is its base-256 little-endian digit list `toBytesLE S v`,
and values of `T` are naturals `v < 2 ^ (8 * S)`.

The embedding follows the source structure:
* `revert`         — `detail::revert` (the generic byte-reversal loop),
* `endian_buffer`  — `put_re` / `get_re` / `put_ne` / `get_ne` with the
  template-specialization dispatch for sizes 2/4/8 (`endian_buffer_opt`
  with the compiler byte-swap builtins, present under MSVC/GCC),
* `eb_assign` / `eb_get` / `eb_compound` / increment and decrement —
  `endian_base` (the Endian Value wrapper),
* `le_store` / `le_load` / `be_store` / `be_load` — the free functions,
  instantiated for a little-endian host (`__LITTLE_ENDIAN__`), which is the
  host the spec scenarios fix.
-/

namespace EndianHpp

/-- Little-endian object representation of a value `v` occupying `S` bytes
on the (little-endian) host: byte `i` is `v / 2 ^ (8 * i) % 2 ^ 8`. -/
def toBytesLE (S v : ℕ) : List ℕ :=
  (List.range S).map (fun i => v / 2 ^ (8 * i) % 2 ^ 8)

/-- Read a little-endian byte list back as a natural number. -/
def fromBytesLE (l : List ℕ) : ℕ :=
  l.foldr (fun b acc => b + 2 ^ 8 * acc) 0

/-- `detail::revert<Size>(dst, src)`: the loop `dst[i] = src[Size - 1 - i]`
for `i` in `[0, Size)`, written as successive in-place writes into `dst`. -/
def revert (Size : ℕ) (dst src : List ℕ) : List ℕ :=
  (List.range Size).foldl (fun d i => d.set i (src.getD (Size - 1 - i) 0)) dst

/-- `std::memcpy(dst, src, n)` on byte buffers: the first `n` bytes of `dst`
are replaced by the first `n` bytes of `src`. -/
def memcpy (dst src : List ℕ) (n : ℕ) : List ℕ :=
  src.take n ++ dst.drop n

/-- Models the compiler builtin bswap16 (`__builtin_bswap16` /
`_byteswap_ushort`), external to the repository: the two bytes of a 16-bit
unsigned integer, reversed. -/
def bswap16 (x : ℕ) : ℕ :=
  x % 2 ^ 8 * 2 ^ 8 + x / 2 ^ 8 % 2 ^ 8

/-- Models the compiler builtin bswap32 (`__builtin_bswap32` /
`_byteswap_ulong`): the four bytes of a 32-bit unsigned integer, reversed. -/
def bswap32 (x : ℕ) : ℕ :=
  x % 2 ^ 8 * 2 ^ 24 + x / 2 ^ 8 % 2 ^ 8 * 2 ^ 16 +
    x / 2 ^ 16 % 2 ^ 8 * 2 ^ 8 + x / 2 ^ 24 % 2 ^ 8

/-- Models the compiler builtin bswap64 (`__builtin_bswap64` /
`_byteswap_uint64`): the eight bytes of a 64-bit unsigned integer,
reversed. -/
def bswap64 (x : ℕ) : ℕ :=
  x % 2 ^ 8 * 2 ^ 56 + x / 2 ^ 8 % 2 ^ 8 * 2 ^ 48 +
    x / 2 ^ 16 % 2 ^ 8 * 2 ^ 40 + x / 2 ^ 24 % 2 ^ 8 * 2 ^ 32 +
    x / 2 ^ 32 % 2 ^ 8 * 2 ^ 24 + x / 2 ^ 40 % 2 ^ 8 * 2 ^ 16 +
    x / 2 ^ 48 % 2 ^ 8 * 2 ^ 8 + x / 2 ^ 56 % 2 ^ 8

/-- Size-dispatched byte swap (`endian_buffer<T,2,2>::swap`,
`endian_buffer<T,4,4>::swap`, `endian_buffer<T,8,8>::swap`). -/
def bswap (S x : ℕ) : ℕ :=
  if S = 2 then bswap16 x else if S = 4 then bswap32 x else bswap64 x

/-- Whether `endian_buffer<T, Size, Align>` resolves to one of the explicit
byte-swap specializations `<T,2,2>` / `<T,4,4>` / `<T,8,8>` (these exist
under `_MSC_VER` or `__GNUG__`, which the model assumes). -/
def isSpecialized (Size Align : ℕ) : Bool :=
  (Size == 2 || Size == 4 || Size == 8) && Align == Size

/-- `endian_buffer::can_opt` of the primary template:
`(Size == 2 || Size == 4 || Size == 8) && Align != Size`. -/
def can_opt (Size Align : ℕ) : Bool :=
  (Size == 2 || Size == 4 || Size == 8) && Align != Size

/-- `endian_buffer_opt::put_re` (via CRTP `Base::swap`): the stored integer
becomes `swap(reinterpret(src))`; on the little-endian host the buffer's
bytes are the little-endian representation of that integer. -/
def opt_put_re (S v : ℕ) : List ℕ :=
  toBytesLE S (bswap S v)

/-- `endian_buffer_opt::get_re`: read the stored integer, apply
`Base::swap`, reinterpret the result as `T`. -/
def opt_get_re (S : ℕ) (src : List ℕ) : ℕ :=
  bswap S (fromBytesLE (src.take S))

/-- `endian_buffer::put_re(dst, src)`: the explicit specializations use the
byte swap directly; the primary template with `can_opt` builds an aligned
`endian_buffer<T, Size, Size>`, stores through it, and `memcpy`s `Size`
bytes into `dst`; otherwise it runs `revert` on the host bytes of `src`. -/
def put_re (Size Align : ℕ) (dst : List ℕ) (v : ℕ) : List ℕ :=
  if isSpecialized Size Align then opt_put_re Size v
  else if can_opt Size Align then memcpy dst (opt_put_re Size v) Size
  else revert Size dst (toBytesLE Size v)

/-- `endian_buffer::get_re(src)`: the explicit specializations swap the
stored integer; the primary template with `can_opt` `memcpy`s the bytes
into an aligned `endian_buffer<T, Size, Size>` and loads through it;
otherwise it `revert`s into a fresh `T` and returns it. -/
def get_re (Size Align : ℕ) (src : List ℕ) : ℕ :=
  if isSpecialized Size Align then opt_get_re Size src
  else if can_opt Size Align then
    opt_get_re Size (memcpy (List.replicate Size 0) src Size)
  else fromBytesLE ((revert Size (List.replicate Size 0) src).take Size)

/-- `endian_buffer::put_ne(dst, src)`: the specializations assign the
reinterpreted integer; the primary template `memcpy`s the `Size` host bytes
of `src`. -/
def put_ne (Size Align : ℕ) (dst : List ℕ) (v : ℕ) : List ℕ :=
  if isSpecialized Size Align then toBytesLE Size v
  else memcpy dst (toBytesLE Size v) Size

/-- `endian_buffer::get_ne(src)`: identity copy of `Size` bytes back into a
host value. -/
def get_ne (Size : ℕ) (src : List ℕ) : ℕ :=
  fromBytesLE (src.take Size)

/-- `endian_base(const T&)` / `operator=(const T&)`:
`Native ? buf::put_ne(data, value) : buf::put_re(data, value)`. -/
def eb_assign (Size Align : ℕ) (Native : Bool) (st : List ℕ) (v : ℕ) : List ℕ :=
  if Native then put_ne Size Align st v else put_re Size Align st v

/-- `endian_base::get()` / `operator T()`:
`Native ? buf::get_ne(data) : buf::get_re(data)`. -/
def eb_get (Size Align : ℕ) (Native : Bool) (st : List ℕ) : ℕ :=
  if Native then get_ne Size st else get_re Size Align st

/-- The ten compound-assignment operators of `endian_base`. -/
inductive Op
  | add | sub | mul | div | mod | band | bor | bxor | shl | shr
deriving DecidableEq

/-- The host-side effect `val op= rhs` of each compound operator on an
unsigned integer type of byte size `S` (C unsigned semantics: arithmetic
modulo `2 ^ (8 * S)`). This is the plain host computation the wrapper
forwards to; the wrapper itself adds no arithmetic. -/
def hostOp (S : ℕ) : Op → ℕ → ℕ → ℕ
  | .add, a, b => (a + b) % 2 ^ (8 * S)
  | .sub, a, b => (2 ^ (8 * S) + a - b % 2 ^ (8 * S)) % 2 ^ (8 * S)
  | .mul, a, b => a * b % 2 ^ (8 * S)
  | .div, a, b => a / b
  | .mod, a, b => a % b
  | .band, a, b => a &&& b
  | .bor, a, b => a ||| b
  | .bxor, a, b => a ^^^ b
  | .shl, a, b => a * 2 ^ b % 2 ^ (8 * S)
  | .shr, a, b => a / 2 ^ b

/-- `endian_base::operator op=(rhs)` for each compound operator `op`:
`auto val = get(); val op= rhs; return (*this = val);` — decode, operate on
the host value, re-encode. -/
def eb_compound (Size Align : ℕ) (Native : Bool) (k : Op) (st : List ℕ)
    (b : ℕ) : List ℕ :=
  eb_assign Size Align Native st (hostOp Size k (eb_get Size Align Native st) b)

/-- `endian_base::operator++(int)` (postfix): `auto val = get();
auto result = val++; *this = val; return result;` — returns the returned
copy and the updated state. -/
def eb_postinc (Size Align : ℕ) (Native : Bool) (st : List ℕ) :
    ℕ × List ℕ :=
  (eb_get Size Align Native st,
    eb_assign Size Align Native st
      ((eb_get Size Align Native st + 1) % 2 ^ (8 * Size)))

/-- `endian_base::operator--(int)` (postfix). -/
def eb_postdec (Size Align : ℕ) (Native : Bool) (st : List ℕ) :
    ℕ × List ℕ :=
  (eb_get Size Align Native st,
    eb_assign Size Align Native st
      ((eb_get Size Align Native st + (2 ^ (8 * Size) - 1)) % 2 ^ (8 * Size)))

/-- `endian_base::operator++()` (prefix): `auto val = get(); ++val;
return (*this = val);` — the updated state (the returned reference decodes
from it). -/
def eb_preinc (Size Align : ℕ) (Native : Bool) (st : List ℕ) : List ℕ :=
  eb_assign Size Align Native st
    ((eb_get Size Align Native st + 1) % 2 ^ (8 * Size))

/-- `endian_base::operator--()` (prefix). -/
def eb_predec (Size Align : ℕ) (Native : Bool) (st : List ℕ) : List ℕ :=
  eb_assign Size Align Native st
    ((eb_get Size Align Native st + (2 ^ (8 * Size) - 1)) % 2 ^ (8 * Size))

/-- `std::le_store` on the little-endian host (`LE_STORE` is `put_ne`);
`endian_buffer<T>` defaults to `Align = 1`. -/
def le_store (S : ℕ) (dst : List ℕ) (v : ℕ) : List ℕ :=
  put_ne S 1 dst v

/-- `std::le_load` on the little-endian host (`LE_LOAD` is `get_ne`). -/
def le_load (S : ℕ) (src : List ℕ) : ℕ :=
  get_ne S src

/-- `std::be_store` on the little-endian host (`BE_STORE` is `put_re`);
`endian_buffer<T>` defaults to `Align = 1`. -/
def be_store (S : ℕ) (dst : List ℕ) (v : ℕ) : List ℕ :=
  put_re S 1 dst v

/-- `std::be_load` on the little-endian host (`BE_LOAD` is `get_re`). -/
def be_load (S : ℕ) (src : List ℕ) : ℕ :=
  get_re S 1 src

/-- Which implementation computes `put_re` / `get_re` for a given
`(Size, Align)` instantiation: `hw` when the code reaches a byte-swap
builtin (directly through a specialization, or through the `can_opt`
delegation of the primary template), `generic` when the `revert` loop
runs. The branch structure mirrors `put_re` / `get_re` above. -/
inductive RePath
  | hw | generic
deriving DecidableEq

/-- Dispatch outcome of the reversed-order path, mirroring the branch
structure of `put_re` and `get_re`. -/
def rePath (Size Align : ℕ) : RePath :=
  if isSpecialized Size Align then .hw
  else if can_opt Size Align then .hw
  else .generic

/-- The spec's stated condition for the fast path (from its words, for
comparison with `rePath`): size in {2, 4, 8} and alignment equal to the
size. -/
def specFastCond (Size Align : ℕ) : Prop :=
  (Size = 2 ∨ Size = 4 ∨ Size = 8) ∧ Align = Size

instance (Size Align : ℕ) : Decidable (specFastCond Size Align) := by
  unfold specFastCond; infer_instance

/-! ## Byte-representation lemmas -/

theorem toBytesLE_length (S v : ℕ) : (toBytesLE S v).length = S := by
  simp [toBytesLE]

theorem toBytesLE_lt (S v : ℕ) : ∀ b ∈ toBytesLE S v, b < 2 ^ 8 := by
  intro b hb
  simp only [toBytesLE, List.mem_map] at hb
  obtain ⟨i, -, rfl⟩ := hb
  exact Nat.mod_lt _ (by norm_num)

theorem toBytesLE_succ (S v : ℕ) :
    toBytesLE (S + 1) v = v % 2 ^ 8 :: toBytesLE S (v / 2 ^ 8) := by
  unfold toBytesLE
  rw [List.range_succ_eq_map, List.map_cons, List.map_map]
  refine congrArg₂ _ (by norm_num) (List.map_congr_left fun i _ => ?_)
  simp only [Function.comp_apply, Nat.succ_eq_add_one]
  rw [Nat.div_div_eq_div_mul, ← pow_add]
  ring_nf

theorem fromBytesLE_cons (b : ℕ) (l : List ℕ) :
    fromBytesLE (b :: l) = b + 2 ^ 8 * fromBytesLE l := rfl

theorem fromBytesLE_toBytesLE (S v : ℕ) (hv : v < 2 ^ (8 * S)) :
    fromBytesLE (toBytesLE S v) = v := by
  induction S generalizing v with
  | zero =>
    interval_cases v
    rfl
  | succ S ih =>
    rw [toBytesLE_succ, fromBytesLE_cons, ih (v / 2 ^ 8) ?_, Nat.mod_add_div]
    have h : 2 ^ (8 * (S + 1)) = 2 ^ 8 * 2 ^ (8 * S) := by ring
    rw [Nat.div_lt_iff_lt_mul (by norm_num : 0 < 2 ^ 8)]
    omega

theorem toBytesLE_fromBytesLE (l : List ℕ) (hl : ∀ b ∈ l, b < 2 ^ 8) :
    toBytesLE l.length (fromBytesLE l) = l := by
  induction l with
  | nil => rfl
  | cons b t ih =>
    have hb : b < 2 ^ 8 := hl b (by simp)
    rw [List.length_cons, fromBytesLE_cons, toBytesLE_succ,
      Nat.add_mul_mod_self_left, Nat.mod_eq_of_lt hb,
      Nat.add_mul_div_left _ _ (by norm_num : (0:ℕ) < 2 ^ 8),
      Nat.div_eq_of_lt hb]
    simpa using ih fun x hx => hl x (by simp [hx])

theorem fromBytesLE_lt (l : List ℕ) (hl : ∀ b ∈ l, b < 2 ^ 8) :
    fromBytesLE l < 2 ^ (8 * l.length) := by
  induction l with
  | nil => simp [fromBytesLE]
  | cons b t ih =>
    have hb : b < 2 ^ 8 := hl b (by simp)
    have ht := ih fun x hx => hl x (by simp [hx])
    have h : 2 ^ (8 * (b :: t).length) = 2 ^ 8 * 2 ^ (8 * t.length) := by
      simp only [List.length_cons]; ring
    rw [fromBytesLE_cons, h]
    have h8 : (2:ℕ) ^ 8 = 256 := by norm_num
    rw [h8] at hb ⊢
    omega

/-! ## The generic reversal loop -/

theorem foldl_set_range (f : ℕ → ℕ) (n : ℕ) (d : List ℕ) (hd : n ≤ d.length) :
    (List.range n).foldl (fun d i => d.set i (f i)) d =
      (List.range n).map f ++ d.drop n := by
  induction n with
  | zero => simp
  | succ n ih =>
    have hn : n < d.length := by omega
    rw [List.range_succ, List.foldl_append, List.map_append,
      List.foldl_cons, List.foldl_nil, ih (by omega), List.set_append,
      if_neg (by simp), List.map_cons, List.map_nil, List.length_map,
      List.length_range, Nat.sub_self, List.drop_eq_getElem_cons hn,
      List.set_cons_zero, List.append_assoc, List.singleton_append]

theorem revert_eq_reverse (S : ℕ) (dst src : List ℕ) (hdst : S ≤ dst.length)
    (hsrc : src.length = S) :
    revert S dst src = src.reverse ++ dst.drop S := by
  unfold revert
  rw [foldl_set_range _ _ _ hdst]
  refine congrArg₂ _ (List.ext_getElem (by simp [hsrc]) fun i h1 h2 => ?_) rfl
  have hi : i < S := by simpa using h1
  rw [List.getElem_map, List.getElem_range, List.getElem_reverse,
    List.getD_eq_getElem src 0 (by omega)]
  congr 1
  omega

/-! ## Byte-swap builtin lemmas -/

theorem bswap16_eq (x : ℕ) :
    bswap16 x = fromBytesLE (toBytesLE 2 x).reverse := by
  norm_num [bswap16, fromBytesLE, toBytesLE, List.range_succ]
  ring

theorem bswap32_eq (x : ℕ) :
    bswap32 x = fromBytesLE (toBytesLE 4 x).reverse := by
  norm_num [bswap32, fromBytesLE, toBytesLE, List.range_succ]
  ring

theorem bswap64_eq (x : ℕ) :
    bswap64 x = fromBytesLE (toBytesLE 8 x).reverse := by
  norm_num [bswap64, fromBytesLE, toBytesLE, List.range_succ]
  ring

theorem bswap_eq (S x : ℕ) (hS : S = 2 ∨ S = 4 ∨ S = 8) :
    bswap S x = fromBytesLE (toBytesLE S x).reverse := by
  obtain rfl | rfl | rfl := hS
  · exact bswap16_eq x
  · simpa [bswap] using bswap32_eq x
  · simpa [bswap] using bswap64_eq x

theorem toBytesLE_bswap (S x : ℕ) (hS : S = 2 ∨ S = 4 ∨ S = 8) :
    toBytesLE S (bswap S x) = (toBytesLE S x).reverse := by
  have hb : ∀ b ∈ (toBytesLE S x).reverse, b < 2 ^ 8 := fun b hb =>
    toBytesLE_lt S x b (List.mem_reverse.mp hb)
  have h := toBytesLE_fromBytesLE (toBytesLE S x).reverse hb
  rw [List.length_reverse, toBytesLE_length] at h
  rw [bswap_eq S x hS, h]

theorem bswap_lt (S x : ℕ) (hS : S = 2 ∨ S = 4 ∨ S = 8) :
    bswap S x < 2 ^ (8 * S) := by
  have h := fromBytesLE_lt (toBytesLE S x).reverse fun b hb =>
    toBytesLE_lt S x b (List.mem_reverse.mp hb)
  rw [List.length_reverse, toBytesLE_length] at h
  rw [bswap_eq S x hS]
  exact h

theorem bswap_fromBytesLE (S : ℕ) (src : List ℕ) (hS : S = 2 ∨ S = 4 ∨ S = 8)
    (hlen : src.length = S) (hb : ∀ b ∈ src, b < 2 ^ 8) :
    bswap S (fromBytesLE src) = fromBytesLE src.reverse := by
  have hlt : fromBytesLE src < 2 ^ (8 * S) := hlen ▸ fromBytesLE_lt src hb
  have h1 : toBytesLE S (fromBytesLE src) = src := hlen ▸
    toBytesLE_fromBytesLE src hb
  have h2 := toBytesLE_bswap S (fromBytesLE src) hS
  rw [h1] at h2
  calc bswap S (fromBytesLE src)
      = fromBytesLE (toBytesLE S (bswap S (fromBytesLE src))) :=
        (fromBytesLE_toBytesLE _ _ (bswap_lt S _ hS)).symm
    _ = fromBytesLE src.reverse := by rw [h2]

theorem bswap_bswap (S v : ℕ) (hS : S = 2 ∨ S = 4 ∨ S = 8)
    (hv : v < 2 ^ (8 * S)) : bswap S (bswap S v) = v := by
  have h1 := toBytesLE_bswap S v hS
  have h2 := toBytesLE_bswap S (bswap S v) hS
  rw [h1, List.reverse_reverse] at h2
  calc bswap S (bswap S v)
      = fromBytesLE (toBytesLE S (bswap S (bswap S v))) :=
        (fromBytesLE_toBytesLE _ _ (bswap_lt S _ hS)).symm
    _ = fromBytesLE (toBytesLE S v) := by rw [h2]
    _ = v := fromBytesLE_toBytesLE S v hv

/-! ## Normal forms of the buffer primitives -/

theorem isSpecialized_size {Size Align : ℕ}
    (h : isSpecialized Size Align = true) : Size = 2 ∨ Size = 4 ∨ Size = 8 := by
  simp only [isSpecialized, Bool.and_eq_true, Bool.or_eq_true, beq_iff_eq] at h
  tauto

theorem can_opt_size {Size Align : ℕ} (h : can_opt Size Align = true) :
    Size = 2 ∨ Size = 4 ∨ Size = 8 := by
  simp only [can_opt, Bool.and_eq_true, Bool.or_eq_true, beq_iff_eq] at h
  tauto

theorem put_re_eq (Size Align : ℕ) (dst : List ℕ) (v : ℕ)
    (hd : dst.length = Size) :
    put_re Size Align dst v = (toBytesLE Size v).reverse := by
  unfold put_re opt_put_re
  split
  case isTrue h => exact toBytesLE_bswap Size v (isSpecialized_size h)
  case isFalse =>
    split
    case isTrue h =>
      rw [toBytesLE_bswap Size v (can_opt_size h), memcpy,
        List.take_of_length_le (by simp [toBytesLE_length]), ← hd,
        List.drop_length, List.append_nil]
    case isFalse =>
      rw [revert_eq_reverse Size dst (toBytesLE Size v) (by omega)
        (toBytesLE_length Size v), ← hd, List.drop_length, List.append_nil]

theorem put_ne_eq (Size Align : ℕ) (dst : List ℕ) (v : ℕ)
    (hd : dst.length = Size) :
    put_ne Size Align dst v = toBytesLE Size v := by
  unfold put_ne
  split
  case isTrue => rfl
  case isFalse =>
    rw [memcpy, List.take_of_length_le (by simp [toBytesLE_length]), ← hd,
      List.drop_length, List.append_nil]

theorem get_ne_eq (Size : ℕ) (src : List ℕ) (hs : src.length = Size) :
    get_ne Size src = fromBytesLE src := by
  rw [get_ne, ← hs, List.take_length]

theorem get_re_eq (Size Align : ℕ) (src : List ℕ) (hs : src.length = Size)
    (hb : ∀ b ∈ src, b < 2 ^ 8) :
    get_re Size Align src = fromBytesLE src.reverse := by
  subst hs
  unfold get_re opt_get_re
  split
  case isTrue h =>
    rw [List.take_length,
      bswap_fromBytesLE src.length src (isSpecialized_size h) rfl hb]
  case isFalse =>
    split
    case isTrue h =>
      simp only [memcpy, List.take_length, List.drop_replicate, Nat.sub_self,
        List.replicate_zero, List.append_nil]
      rw [bswap_fromBytesLE src.length src (can_opt_size h) rfl hb]
    case isFalse =>
      rw [revert_eq_reverse src.length (List.replicate src.length 0) src
        (by simp) rfl, List.drop_replicate, Nat.sub_self, List.replicate_zero,
        List.append_nil, List.take_of_length_le (by simp)]

/-! ## Normal forms of the Endian Value wrapper -/

theorem eb_assign_eq (Size Align : ℕ) (N : Bool) (st : List ℕ) (v : ℕ)
    (hst : st.length = Size) :
    eb_assign Size Align N st v =
      if N then toBytesLE Size v else (toBytesLE Size v).reverse := by
  cases N <;>
    simp [eb_assign, put_ne_eq Size Align st v hst, put_re_eq Size Align st v hst]

theorem eb_assign_length (Size Align : ℕ) (N : Bool) (st : List ℕ) (v : ℕ)
    (hst : st.length = Size) :
    (eb_assign Size Align N st v).length = Size := by
  rw [eb_assign_eq Size Align N st v hst]
  cases N <;> simp [toBytesLE_length]

theorem eb_assign_bytes_lt (Size Align : ℕ) (N : Bool) (st : List ℕ) (v : ℕ)
    (hst : st.length = Size) :
    ∀ b ∈ eb_assign Size Align N st v, b < 2 ^ 8 := by
  rw [eb_assign_eq Size Align N st v hst]
  cases N with
  | false =>
    intro b hb
    exact toBytesLE_lt Size v b (List.mem_reverse.mp (by simpa using hb))
  | true =>
    intro b hb
    exact toBytesLE_lt Size v b (by simpa using hb)

theorem eb_get_eq (Size Align : ℕ) (N : Bool) (st : List ℕ)
    (hst : st.length = Size) (hb : ∀ b ∈ st, b < 2 ^ 8) :
    eb_get Size Align N st =
      if N then fromBytesLE st else fromBytesLE st.reverse := by
  cases N <;>
    simp [eb_get, get_ne_eq Size st hst, get_re_eq Size Align st hst hb]

theorem eb_get_assign (Size Align : ℕ) (N : Bool) (st : List ℕ) (v : ℕ)
    (hst : st.length = Size) (hv : v < 2 ^ (8 * Size)) :
    eb_get Size Align N (eb_assign Size Align N st v) = v := by
  rw [eb_get_eq Size Align N _ (eb_assign_length Size Align N st v hst)
    (eb_assign_bytes_lt Size Align N st v hst),
    eb_assign_eq Size Align N st v hst]
  cases N <;> simp [List.reverse_reverse, fromBytesLE_toBytesLE Size v hv]

theorem eb_get_lt (Size Align : ℕ) (N : Bool) (st : List ℕ)
    (hst : st.length = Size) (hb : ∀ b ∈ st, b < 2 ^ 8) :
    eb_get Size Align N st < 2 ^ (8 * Size) := by
  rw [eb_get_eq Size Align N st hst hb]
  cases N with
  | false =>
    have h := fromBytesLE_lt st.reverse fun b h => hb b (List.mem_reverse.mp h)
    rw [List.length_reverse, hst] at h
    simpa using h
  | true =>
    have h := fromBytesLE_lt st hb
    rw [hst] at h
    simpa using h

theorem hostOp_lt (S : ℕ) (k : Op) (a b : ℕ) (ha : a < 2 ^ (8 * S))
    (hb : b < 2 ^ (8 * S)) : hostOp S k a b < 2 ^ (8 * S) := by
  have hpos : 0 < 2 ^ (8 * S) := Nat.pos_pow_of_pos _ (by norm_num)
  cases k with
  | add => exact Nat.mod_lt _ hpos
  | sub => exact Nat.mod_lt _ hpos
  | mul => exact Nat.mod_lt _ hpos
  | div => exact lt_of_le_of_lt (Nat.div_le_self a b) ha
  | mod => exact lt_of_le_of_lt (Nat.mod_le a b) ha
  | band => exact lt_of_le_of_lt Nat.and_le_left ha
  | bor => exact Nat.or_lt_two_pow ha hb
  | bxor => exact Nat.xor_lt_two_pow ha hb
  | shl => exact Nat.mod_lt _ hpos
  | shr => exact lt_of_le_of_lt (Nat.div_le_self a (2 ^ b)) ha

/-! ## The claims -/

/-- Claim C1: for every size and alignment, for both byte orders (the
`Native` flag of `endian_base` selects little- or big-endian storage on the
little-endian host), and for every representable value `v`, decoding an
Endian Value immediately after encoding `v` into it returns exactly `v`:
`get()` (and `operator T`, which runs the same code) after the converting
constructor or `operator=` yields `v`. -/
theorem claim_C1_roundtrip (Size Align : ℕ) (Native : Bool) (st : List ℕ)
    (v : ℕ) (hst : st.length = Size) (hv : v < 2 ^ (8 * Size)) :
    eb_get Size Align Native (eb_assign Size Align Native st v) = v :=
  eb_get_assign Size Align Native st v hst hv

/-- Witness for C1: a 3-byte big-endian-style value (generic path) at
alignment 1 round-trips `0x010203`. -/
theorem claim_C1_roundtrip_witness :
    eb_get 3 1 false (eb_assign 3 1 false [0, 0, 0] 66051) = 66051 :=
  claim_C1_roundtrip 3 1 false [0, 0, 0] 66051 (by decide) (by decide)

/-- Claim C2: for every size in {2, 4, 8} and every input, the hardware
byte-swap fast path (`endian_buffer_opt` through the `swap`
specializations, i.e. `opt_put_re` / `opt_get_re`) produces bytes
identical to the generic byte-by-byte reversal loop (`revert`), for both
the store direction and the load direction: a pure performance
substitution with no semantic difference. -/
theorem claim_C2_path_equivalence (S : ℕ) (hS : S = 2 ∨ S = 4 ∨ S = 8)
    (v : ℕ) (dst src : List ℕ) (hdst : dst.length = S)
    (hsrc : src.length = S) (hb : ∀ b ∈ src, b < 2 ^ 8) :
    opt_put_re S v = revert S dst (toBytesLE S v) ∧
      opt_get_re S src =
        fromBytesLE ((revert S (List.replicate S 0) src).take S) := by
  constructor
  · rw [opt_put_re, toBytesLE_bswap S v hS,
      revert_eq_reverse S dst _ (by omega) (toBytesLE_length S v), ← hdst,
      List.drop_length, List.append_nil]
  · rw [opt_get_re, List.take_of_length_le (by omega),
      bswap_fromBytesLE S src hS hsrc hb,
      revert_eq_reverse S (List.replicate S 0) src (by simp) hsrc,
      List.drop_replicate, Nat.sub_self, List.replicate_zero,
      List.append_nil, List.take_of_length_le (by simp [hsrc])]

/-- Witness for C2: size 4, value `0x01020304`, loading from bytes
`[1, 2, 3, 4]`. -/
theorem claim_C2_path_equivalence_witness :
    opt_put_re 4 16909060 = revert 4 [0, 0, 0, 0] (toBytesLE 4 16909060) ∧
      opt_get_re 4 [1, 2, 3, 4] =
        fromBytesLE ((revert 4 (List.replicate 4 0) [1, 2, 3, 4]).take 4) :=
  claim_C2_path_equivalence 4 (by decide) 16909060 [0, 0, 0, 0] [1, 2, 3, 4]
    (by decide) (by decide) (by decide)

/-- Claim C3: for every compound operator of `endian_base`
(`+= -= *= /= %= &= |= ^= <<= >>=`), both byte orders, every stored state
and operand, decoding after the compound operation equals applying the
host-side operation (`hostOp`, the operator's effect on the plain unsigned
host type, with its native wraparound) to the decoded prior value — the
wrapper changes only storage order, never numeric semantics. -/
theorem claim_C3_compound_parity (k : Op) (Size Align : ℕ) (Native : Bool)
    (st : List ℕ) (b : ℕ) (hst : st.length = Size)
    (hwf : ∀ x ∈ st, x < 2 ^ 8) (hb : b < 2 ^ (8 * Size)) :
    eb_get Size Align Native (eb_compound Size Align Native k st b) =
      hostOp Size k (eb_get Size Align Native st) b :=
  eb_get_assign Size Align Native st _ hst
    (hostOp_lt Size k _ b (eb_get_lt Size Align Native st hst hwf) hb)

/-- Witness for C3: `*=` with operand 7 on a big-endian 32-bit value whose
stored bytes are `[1, 2, 3, 4]`. -/
theorem claim_C3_compound_parity_witness :
    eb_get 4 4 false (eb_compound 4 4 false Op.mul [1, 2, 3, 4] 7) =
      hostOp 4 Op.mul (eb_get 4 4 false [1, 2, 3, 4]) 7 :=
  claim_C3_compound_parity Op.mul 4 4 false [1, 2, 3, 4] 7 (by decide)
    (by decide) (by decide)

/-- Claim C4: `put_re` (store_reversed) writes exactly `Size` bytes such
that byte `i` of the destination equals byte `Size - 1 - i` of the value's
host representation for every `i < Size`, and `get_re` (load_reversed) is
its inverse, reconstructing the host value by reversing the bytes; both
are total functions of their inputs (defined for every value, with no
error path, by construction). -/
theorem claim_C4_store_load_reversed (Size Align : ℕ) (dst : List ℕ)
    (v : ℕ) (hdst : dst.length = Size) (hv : v < 2 ^ (8 * Size)) :
    (put_re Size Align dst v).length = Size ∧
      (∀ i, i < Size → (put_re Size Align dst v).getD i 0 =
        (toBytesLE Size v).getD (Size - 1 - i) 0) ∧
      get_re Size Align (put_re Size Align dst v) = v := by
  rw [put_re_eq Size Align dst v hdst]
  refine ⟨by simp [toBytesLE_length], fun i hi => ?_, ?_⟩
  · have h1 : i < (toBytesLE Size v).reverse.length := by
      simp [toBytesLE_length, hi]
    have h2 : Size - 1 - i < (toBytesLE Size v).length := by
      rw [toBytesLE_length]; omega
    rw [List.getD_eq_getElem _ 0 h1, List.getD_eq_getElem _ 0 h2,
      List.getElem_reverse]
    congr 1
    rw [toBytesLE_length]
  · rw [get_re_eq Size Align _ (by simp [toBytesLE_length])
      (fun b h => toBytesLE_lt Size v b (List.mem_reverse.mp h)),
      List.reverse_reverse, fromBytesLE_toBytesLE Size v hv]

/-- Witness for C4: size 3, alignment 1 (generic path), value `0x010203`. -/
theorem claim_C4_store_load_reversed_witness :
    (put_re 3 1 [7, 7, 7] 66051).length = 3 ∧
      (∀ i, i < 3 → (put_re 3 1 [7, 7, 7] 66051).getD i 0 =
        (toBytesLE 3 66051).getD (3 - 1 - i) 0) ∧
      get_re 3 1 (put_re 3 1 [7, 7, 7] 66051) = 66051 :=
  claim_C4_store_load_reversed 3 1 [7, 7, 7] 66051 (by decide) (by decide)

/-- Claim C5: Scenario A — a big-endian 32-bit Endian Value
(`be_t<std::uint32_t>`: size 4, alignment 4, `Native = false` on the
little-endian host) initialized to `0x01020304` stores backing bytes
`[0x01, 0x02, 0x03, 0x04]`, decodes to `0x01020304`, and after `+= 1`
stores `[0x01, 0x02, 0x03, 0x05]` and decodes to `0x01020305`. -/
theorem claim_C5_scenario_a :
    eb_assign 4 4 false (List.replicate 4 0) 0x01020304 =
        [0x01, 0x02, 0x03, 0x04] ∧
      eb_get 4 4 false
        (eb_assign 4 4 false (List.replicate 4 0) 0x01020304) = 0x01020304 ∧
      eb_compound 4 4 false Op.add
        (eb_assign 4 4 false (List.replicate 4 0) 0x01020304) 1 =
        [0x01, 0x02, 0x03, 0x05] ∧
      eb_get 4 4 false (eb_compound 4 4 false Op.add
        (eb_assign 4 4 false (List.replicate 4 0) 0x01020304) 1) =
        0x01020305 := by
  decide

/-- Claim C6: for both byte orders and every stored state, the postfix
increment and decrement return the decoded value as it was immediately
before the mutation, the prefix forms decode to the updated value, and in
all four cases the new stored value decodes to what the host operator
(`+ 1` or `- 1` with the unsigned wraparound of `T`) produces on the prior
decoded value. -/
theorem claim_C6_inc_dec_parity (Size Align : ℕ) (Native : Bool)
    (st : List ℕ) (hst : st.length = Size) :
    (eb_postinc Size Align Native st).1 = eb_get Size Align Native st ∧
      eb_get Size Align Native (eb_postinc Size Align Native st).2 =
        (eb_get Size Align Native st + 1) % 2 ^ (8 * Size) ∧
      (eb_postdec Size Align Native st).1 = eb_get Size Align Native st ∧
      eb_get Size Align Native (eb_postdec Size Align Native st).2 =
        (eb_get Size Align Native st + (2 ^ (8 * Size) - 1)) %
          2 ^ (8 * Size) ∧
      eb_get Size Align Native (eb_preinc Size Align Native st) =
        (eb_get Size Align Native st + 1) % 2 ^ (8 * Size) ∧
      eb_get Size Align Native (eb_predec Size Align Native st) =
        (eb_get Size Align Native st + (2 ^ (8 * Size) - 1)) %
          2 ^ (8 * Size) := by
  have hpos : 0 < 2 ^ (8 * Size) := Nat.pos_pow_of_pos _ (by norm_num)
  refine ⟨rfl, ?_, rfl, ?_, ?_, ?_⟩ <;>
    exact eb_get_assign Size Align Native st _ hst (Nat.mod_lt _ hpos)

/-- Witness for C6: big-endian 16-bit state `[0xAB, 0xCD]`. -/
theorem claim_C6_inc_dec_parity_witness :
    (eb_postinc 2 2 false [0xAB, 0xCD]).1 = eb_get 2 2 false [0xAB, 0xCD] ∧
      eb_get 2 2 false (eb_postinc 2 2 false [0xAB, 0xCD]).2 =
        (eb_get 2 2 false [0xAB, 0xCD] + 1) % 2 ^ (8 * 2) ∧
      (eb_postdec 2 2 false [0xAB, 0xCD]).1 = eb_get 2 2 false [0xAB, 0xCD] ∧
      eb_get 2 2 false (eb_postdec 2 2 false [0xAB, 0xCD]).2 =
        (eb_get 2 2 false [0xAB, 0xCD] + (2 ^ (8 * 2) - 1)) % 2 ^ (8 * 2) ∧
      eb_get 2 2 false (eb_preinc 2 2 false [0xAB, 0xCD]) =
        (eb_get 2 2 false [0xAB, 0xCD] + 1) % 2 ^ (8 * 2) ∧
      eb_get 2 2 false (eb_predec 2 2 false [0xAB, 0xCD]) =
        (eb_get 2 2 false [0xAB, 0xCD] + (2 ^ (8 * 2) - 1)) % 2 ^ (8 * 2) :=
  claim_C6_inc_dec_parity 2 2 false [0xAB, 0xCD] (by decide)

/-- Claim C7: Scenarios B and C — on the little-endian host a
little-endian 16-bit value (`le_t<std::uint16_t>`: `Native = true`)
initialized to `0xABCD` stores `[0xCD, 0xAB]` (native copy, no reversal),
a big-endian one (`Native = false`) stores `[0xAB, 0xCD]`, and both decode
back to `0xABCD`. -/
theorem claim_C7_scenarios_b_c :
    eb_assign 2 2 true (List.replicate 2 0) 0xABCD = [0xCD, 0xAB] ∧
      eb_get 2 2 true
        (eb_assign 2 2 true (List.replicate 2 0) 0xABCD) = 0xABCD ∧
      eb_assign 2 2 false (List.replicate 2 0) 0xABCD = [0xAB, 0xCD] ∧
      eb_get 2 2 false
        (eb_assign 2 2 false (List.replicate 2 0) 0xABCD) = 0xABCD := by
  decide

/-- Counterexample to claim C8: at size 4 with declared alignment 1
(alignment smaller than the size), the reversed path still reaches the
hardware byte swap through the `can_opt` delegation of the primary
template — it is not computed by the generic loop, and the fast path is
not restricted to alignment equal to the size. -/
theorem claim_C8_counterexample :
    rePath 4 1 = RePath.hw ∧ ¬ specFastCond 4 1 := by
  decide

/-- Claim C8 (amended): with the byte-swap specializations present
(`_MSC_VER` / `__GNUG__`), `put_re` / `get_re` are computed by the
hardware byte-swap fast path exactly when the size is 2, 4, or 8 — for
every alignment (directly via the specialization when the alignment equals
the size, otherwise via the `can_opt` delegation through an aligned
temporary) — and by the generic byte-by-byte loop exactly for all other
sizes. -/
theorem claim_C8_amended_dispatch (Size Align : ℕ) :
    rePath Size Align = RePath.hw ↔ (Size = 2 ∨ Size = 4 ∨ Size = 8) := by
  simp only [rePath, isSpecialized, can_opt, Bool.and_eq_true,
    Bool.or_eq_true, beq_iff_eq, bne_iff_ne]
  split_ifs with h1 h2
  · simp only [true_iff]
    tauto
  · simp only [true_iff]
    tauto
  · constructor
    · intro h
      exact absurd h (by simp)
    · intro h
      by_cases hA : Align = Size
      · exact absurd ⟨by tauto, hA⟩ h1
      · exact absurd ⟨by tauto, hA⟩ h2

/-- Claim C9: every encode fully overwrites all `Size` bytes: for both
byte orders, encoding `v` from any two prior buffer states of the right
length yields identical backing bytes — the result depends only on `v`,
never on residual bytes of a prior value. (`eb_assign` is the single
encode path: the converting constructor, `operator=`, and every mutating
operator store through it.) -/
theorem claim_C9_full_overwrite (Size Align : ℕ) (Native : Bool)
    (s1 s2 : List ℕ) (v : ℕ) (h1 : s1.length = Size)
    (h2 : s2.length = Size) :
    eb_assign Size Align Native s1 v = eb_assign Size Align Native s2 v := by
  rw [eb_assign_eq Size Align Native s1 v h1,
    eb_assign_eq Size Align Native s2 v h2]

/-- Witness for C9: two different prior 2-byte states. -/
theorem claim_C9_full_overwrite_witness :
    eb_assign 2 1 false [9, 9] 43981 = eb_assign 2 1 false [0, 255] 43981 :=
  claim_C9_full_overwrite 2 1 false [9, 9] [0, 255] 43981 (by decide)
    (by decide)

/-- Claim C10 (implicit): the free functions `le_store` / `le_load` and
`be_store` / `be_load` round-trip every representable value, and they
operate on a buffer of exactly `sizeof(T)` bytes through
`endian_buffer<T>` with its default `Align = 1` (so no natural-alignment
assumption is made about the destination). -/
theorem claim_C10_free_functions (S : ℕ) (dst : List ℕ) (v : ℕ)
    (hdst : dst.length = S) (hv : v < 2 ^ (8 * S)) :
    le_load S (le_store S dst v) = v ∧ be_load S (be_store S dst v) = v ∧
      (le_store S dst v).length = S ∧ (be_store S dst v).length = S := by
  refine ⟨?_, ?_, ?_, ?_⟩
  · rw [le_load, le_store, put_ne_eq S 1 dst v hdst,
      get_ne_eq S _ (toBytesLE_length S v), fromBytesLE_toBytesLE S v hv]
  · rw [be_load, be_store, put_re_eq S 1 dst v hdst,
      get_re_eq S 1 _ (by simp [toBytesLE_length])
        (fun b h => toBytesLE_lt S v b (List.mem_reverse.mp h)),
      List.reverse_reverse, fromBytesLE_toBytesLE S v hv]
  · rw [le_store, put_ne_eq S 1 dst v hdst, toBytesLE_length]
  · rw [be_store, put_re_eq S 1 dst v hdst]
    simp [toBytesLE_length]

/-- Witness for C10: 4-byte value `0x01020304` (the `be_store` side
exercises the `can_opt` fast path at alignment 1). -/
theorem claim_C10_free_functions_witness :
    le_load 4 (le_store 4 [0, 0, 0, 0] 0x01020304) = 0x01020304 ∧
      be_load 4 (be_store 4 [0, 0, 0, 0] 0x01020304) = 0x01020304 ∧
      (le_store 4 [0, 0, 0, 0] 0x01020304).length = 4 ∧
      (be_store 4 [0, 0, 0, 0] 0x01020304).length = 4 :=
  claim_C10_free_functions 4 [0, 0, 0, 0] 0x01020304 (by decide) (by decide)

end EndianHpp
